import Mathlib

/-!
Shallow embedding of the `grab` input-dispatch library (src/builder.rs,
src/parsers/{mod,file,stdin,text}.rs, src/error/input.rs, src/input.rs).

Modeling conventions:
* Rust `&str` values are modeled as `List Char` (`Str`). Both markers and
  inputs are valid UTF-8 strings, for which byte-level prefix matching agrees
  with character-level prefix matching, so nom's byte-oriented `tag` is
  modeled on character lists.
* `u8` weights carry no arithmetic (they are only compared), so they are
  modeled as `Nat`; the defaults 130/140/255 are in range.
* `u32` bitflags are modeled as `Nat` with `|||`/`&&&`; no arithmetic ever
  overflows 2^32 because only unions of the four flag constants occur.
* The `error.expect(..)` panic in `Config::apply` and the `assert!` in
  `Builder::build` are modeled as a distinct `PResult.panicked` outcome and
  as `Option Config` (`none` = panic) respectively.
* Rust's `sort_by_key` is a stable sort keyed by `Option<u8>` with
  `None < Some _`; it is modeled by `List.mergeSort` (also stable) on the
  same key order.
* Actual I/O (opening files, the process stdin handle) is an external
  collaborator; it is abstracted by a `Sys` record supplying the result of
  `std::fs::File::open`. The in-memory `io::Cursor<String>` is modeled
  explicitly.
-/

namespace Grab

/-- Rust `&str`, as a list of characters. -/
abbrev Str := List Char

/-- nom's `tag(marker)(input)` (complete-input version): succeeds iff `input`
begins with `marker`, returning the remaining input. -/
def tag (marker input : Str) : Option Str :=
  if marker.isPrefixOf input then some (input.drop marker.length) else none

/-- src/parsers/stdin.rs `default_stdin_parser`:
`value((), all_consuming(tag(marker)))(input)` — succeeds iff `tag` succeeds
and consumes the entire input (empty remainder). -/
def default_stdin_parse (input marker : Str) : Option Unit :=
  match tag marker input with
  | some rest => if rest.isEmpty then some () else none
  | none => none

/-- src/parsers/file.rs `default_file_parser`:
`tag(marker)(input).map(|(path, _)| ("", PathBuf::from(path)))` — succeeds iff
the input begins with the marker; payload is the remainder, verbatim. -/
def default_file_parse (input marker : Str) : Option Str :=
  tag marker input

/-- src/parsers/text.rs `default_text_parser`: if the marker is empty the
whole input is returned verbatim, otherwise it behaves like `tag`. -/
def default_text_parse (input marker : Str) : Option Str :=
  if marker.isEmpty then some input else tag marker input

/-- src/error/input.rs `EKind` (a `bitflags` set over `u32`). -/
structure EKind where
  bits : Nat
deriving DecidableEq

def EKind.TEXT : EKind := ⟨1⟩

def EKind.STDIN : EKind := ⟨2⟩

def EKind.FILE : EKind := ⟨4⟩

def EKind.REQUIRES_UTF8 : EKind := ⟨65536⟩

/-- bitflags `insert`: `self.bits |= other.bits`. -/
def EKind.insert (a b : EKind) : EKind := ⟨a.bits ||| b.bits⟩

/-- bitflags `contains`: `self.bits & other.bits == other.bits`. -/
def EKind.contains (a b : EKind) : Bool := a.bits &&& b.bits == b.bits

/-- src/error/input.rs `InputError`. -/
structure InputError where
  flags : EKind
deriving DecidableEq

def InputError.new (kind : EKind) : InputError := ⟨kind⟩

def InputError.insert (e : InputError) (kind : EKind) : InputError :=
  ⟨e.flags.insert kind⟩

/-- `InputError::extend`: `self.insert(other.flags)`. -/
def InputError.extend (e other : InputError) : InputError :=
  e.insert other.flags

def InputError.contains (e : InputError) (kind : EKind) : Bool :=
  e.flags.contains kind

def InputError.ALL_KINDS : List EKind :=
  [EKind.TEXT, EKind.STDIN, EKind.FILE, EKind.REQUIRES_UTF8]

def InputError.count (e : InputError) : Nat :=
  (InputError.ALL_KINDS.filter (fun k => e.contains k)).length

/-- src/parsers/file.rs `FilePath` (a `PathBuf` built verbatim from a `&str`). -/
structure FilePath where
  path : Str
deriving DecidableEq

def FilePath.new (path : Str) : FilePath := ⟨path⟩

/-- src/parsers/mod.rs `InputType`. -/
inductive InputType where
  | Stdin : InputType
  | File : FilePath → InputType
  | UTF8 : Str → InputType
deriving DecidableEq

/-- src/parsers/file.rs `File`. The `parser` field (an overridable matching
function, named `parseFn` here because Lean identifiers in this file avoid
that suffix) returns the payload; the unused "remaining input" component of
nom's `IResult` is discarded by `File::parse` via `let (_, path) = ..`. -/
structure File where
  marker : Option Str := none
  parseFn : Option (Str → Str → Option Str) := none
  weight : Option Nat := none

def File.DEFAULT_WEIGHT : Nat := 130

def File.DEFAULT_MARKER : Str := ['@']

def File.new : File := {}

def File.get_weight (p : File) : Nat := p.weight.getD File.DEFAULT_WEIGHT

def File.get_marker (p : File) : Str := p.marker.getD File.DEFAULT_MARKER

/-- `File::parse`: run the custom matching function if set, else the default. -/
def File.parse (p : File) (input : Str) : Option FilePath :=
  (match p.parseFn with
   | some f => f input p.get_marker
   | none => default_file_parse input p.get_marker).map FilePath.new

/-- `File::new_error`: the nom error detail is ignored (src TODO comment). -/
def File.new_error (_ : File) : InputError := InputError.new EKind.FILE

def File.parse_str (p : File) (s : Str) : Except InputError InputType :=
  match p.parse s with
  | some fp => .ok (InputType.File fp)
  | none => .error (p.new_error)

/-- src/parsers/stdin.rs `Stdin`. -/
structure Stdin where
  marker : Option Str := none
  parseFn : Option (Str → Str → Option Unit) := none
  weight : Option Nat := none

def Stdin.DEFAULT_WEIGHT : Nat := 140

def Stdin.DEFAULT_MARKER : Str := ['-']

def Stdin.new : Stdin := {}

def Stdin.get_weight (p : Stdin) : Nat := p.weight.getD Stdin.DEFAULT_WEIGHT

def Stdin.get_marker (p : Stdin) : Str := p.marker.getD Stdin.DEFAULT_MARKER

def Stdin.parse (p : Stdin) (input : Str) : Option Unit :=
  match p.parseFn with
  | some f => f input p.get_marker
  | none => default_stdin_parse input p.get_marker

def Stdin.new_error (_ : Stdin) : InputError := InputError.new EKind.STDIN

def Stdin.parse_str (p : Stdin) (s : Str) : Except InputError InputType :=
  match p.parse s with
  | some _ => .ok InputType.Stdin
  | none => .error (p.new_error)

/-- src/parsers/text.rs `Text`. -/
structure Text where
  marker : Option Str := none
  parseFn : Option (Str → Str → Option Str) := none
  weight : Option Nat := none

def Text.DEFAULT_WEIGHT : Nat := 255

def Text.DEFAULT_MARKER : Str := []

def Text.new : Text := {}

def Text.get_weight (p : Text) : Nat := p.weight.getD Text.DEFAULT_WEIGHT

def Text.get_marker (p : Text) : Str := p.marker.getD Text.DEFAULT_MARKER

def Text.parse (p : Text) (input : Str) : Option Str :=
  match p.parseFn with
  | some f => f input p.get_marker
  | none => default_text_parse input p.get_marker

def Text.new_error (_ : Text) : InputError := InputError.new EKind.TEXT

def Text.parse_str (p : Text) (s : Str) : Except InputError InputType :=
  match p.parse s with
  | some t => .ok (InputType.UTF8 t)
  | none => .error (p.new_error)

/-- Whether a byte is a UTF-8 continuation byte (`0x80..=0xBF`). -/
def isCont (b : Nat) : Bool := 128 ≤ b && b ≤ 191

/-- Model of `std::str::from_utf8` (and of `OsStr::to_str` on the Unix byte
representation of `OsStr`): decode a byte sequence as UTF-8, rejecting
truncated and overlong forms, surrogates, and out-of-range code points. -/
def from_utf8 : List Nat → Option Str
  | [] => some []
  | b :: rest =>
    if b ≤ 127 then
      (from_utf8 rest).map (fun cs => Char.ofNat b :: cs)
    else
      match rest with
      | [] => none
      | b1 :: r1 =>
        if 194 ≤ b && b ≤ 223 then
          if isCont b1 then
            (from_utf8 r1).map (fun cs => Char.ofNat ((b - 192) * 64 + (b1 - 128)) :: cs)
          else none
        else
          match r1 with
          | [] => none
          | b2 :: r2 =>
            if 224 ≤ b && b ≤ 239 then
              if (if b = 224 then 160 ≤ b1 && b1 ≤ 191
                  else if b = 237 then 128 ≤ b1 && b1 ≤ 159
                  else isCont b1) && isCont b2 then
                (from_utf8 r2).map (fun cs =>
                  Char.ofNat ((b - 224) * 4096 + (b1 - 128) * 64 + (b2 - 128)) :: cs)
              else none
            else
              match r2 with
              | [] => none
              | b3 :: r3 =>
                if 240 ≤ b && b ≤ 244 then
                  if (if b = 240 then 144 ≤ b1 && b1 ≤ 191
                      else if b = 244 then 128 ≤ b1 && b1 ≤ 143
                      else isCont b1) && isCont b2 && isCont b3 then
                    (from_utf8 r3).map (fun cs =>
                      Char.ofNat ((b - 240) * 262144 + (b1 - 128) * 4096
                        + (b2 - 128) * 64 + (b3 - 128)) :: cs)
                  else none
                else none

/-- A parser unit as seen by the dispatcher: the `&dyn WeightedParser` trait
object of src/parsers/mod.rs, a closed sum of the three parser kinds. -/
inductive WP where
  | file : File → WP
  | stdin : Stdin → WP
  | text : Text → WP

/-- The `Weight` trait method. -/
def WP.weight : WP → Nat
  | .file p => p.get_weight
  | .stdin p => p.get_weight
  | .text p => p.get_weight

/-- The `Parser::parse_str` trait method, dispatched over the three kinds. -/
def WP.parse_str : WP → Str → Except InputError InputType
  | .file p, s => File.parse_str p s
  | .stdin p, s => Stdin.parse_str p s
  | .text p, s => Text.parse_str p s

/-- `Parser::parse_os_str` default trait method (src/parsers/mod.rs:30-34):
`input.to_str().ok_or(EKind::REQUIRES_UTF8)?` then `parse_str`. An `OsStr`
is modeled by its bytes; `to_str` is UTF-8 validation. -/
def WP.parse_os_str (p : WP) (input : List Nat) : Except InputError InputType :=
  match from_utf8 input with
  | none => .error (InputError.new EKind.REQUIRES_UTF8)
  | some s => p.parse_str s

/-- `Parser::parse_bytes` default trait method (src/parsers/mod.rs:36-40):
`std::str::from_utf8(input).map_err(|_| EKind::REQUIRES_UTF8)?` then
`parse_str`. -/
def WP.parse_bytes (p : WP) (input : List Nat) : Except InputError InputType :=
  match from_utf8 input with
  | none => .error (InputError.new EKind.REQUIRES_UTF8)
  | some s => p.parse_str s

/-- The error category a parser unit reports on failure (`new_error`). -/
def WP.cat : WP → EKind
  | .file _ => EKind.FILE
  | .stdin _ => EKind.STDIN
  | .text _ => EKind.TEXT

/-- src/builder.rs `Builder`. -/
structure Builder where
  stdin : Option Stdin := none
  file : Option File := none
  text : Option Text := none

/-- src/builder.rs `Config`. -/
structure Config where
  inner : Builder

def Builder.new : Builder := {}

/-- `Builder::with_text` (the `text()` convenience method is
`with_text(Text::new())`). -/
def Builder.with_text (b : Builder) (t : Text) : Builder := { b with text := some t }

/-- `Builder::with_stdin` (`stdin()` is `with_stdin(Stdin::new())`). -/
def Builder.with_stdin (b : Builder) (s : Stdin) : Builder := { b with stdin := some s }

/-- `Builder::with_file` (`file()` is `with_file(File::new())`). -/
def Builder.with_file (b : Builder) (f : File) : Builder := { b with file := some f }

def Builder.is_valid (b : Builder) : Bool :=
  b.text.isSome || b.stdin.isSome || b.file.isSome

/-- `Builder::build`; the `assert!(self.is_valid(), ..)` panic on an invalid
builder is modeled as `none`. -/
def Builder.build (b : Builder) : Option Config :=
  if b.is_valid then some ⟨b⟩ else none

/-- `Builder::try_build`. -/
def Builder.try_build (b : Builder) : Except Builder Config :=
  if b.is_valid then .ok ⟨b⟩ else .error b

/-- Result of a dispatch, with the `error.expect("Config should never have
less than one parser, this is a bug")` panic as a distinguished outcome. -/
inductive PResult (ε α : Type) where
  | ok : α → PResult ε α
  | err : ε → PResult ε α
  | panicked : PResult ε α
deriving DecidableEq

def PResult.map (f : α → β) : PResult ε α → PResult ε β
  | .ok a => .ok (f a)
  | .err e => .err e
  | .panicked => .panicked

/-- The order `Option<&dyn WP>` derives from `Option<u8>`: `None < Some _`,
`Some` compared by the contained weight. This is the key order used by
`list.sort_by_key(|opt| opt.map(|p| p.weight()))`. -/
def optNatLe : Option Nat → Option Nat → Bool
  | none, _ => true
  | some _, none => false
  | some a, some b => decide (a ≤ b)

def wpLe (a b : Option WP) : Bool :=
  optNatLe (a.map WP.weight) (b.map WP.weight)

/-- `Config::with_parsers` (src/builder.rs:39-57): collect the slots in
declaration order `[file, stdin, text]` and stable-sort by weight (absent
slots, `none`, sort first). The callback application is separated out. -/
def Config.with_parsers (c : Config) : List (Option WP) :=
  ([c.inner.file.map WP.file,
    c.inner.stdin.map WP.stdin,
    c.inner.text.map WP.text]).mergeSort wpLe

/-- `parsers.iter().filter_map(|o| *o)`: the present parsers, in the order
the dispatcher tries them. -/
def Config.dispatchOrder (c : Config) : List WP :=
  (c.with_parsers).filterMap id

/-- The loop body of `Config::apply` (src/builder.rs:64-84), with the error
accumulator explicit. -/
def Config.applyGo (f : WP → Except InputError InputType) :
    List WP → Option InputError → PResult InputError InputType
  | [], none => .panicked
  | [], some e => .err e
  | p :: rest, acc =>
    match f p with
    | .ok success => .ok success
    | .error e =>
      match acc with
      | some prev => Config.applyGo f rest (some (prev.extend e))
      | none => Config.applyGo f rest (some e)

/-- `Config::apply`. -/
def Config.apply (parsers : List WP) (f : WP → Except InputError InputType) :
    PResult InputError InputType :=
  Config.applyGo f parsers none

/-- `<Config as Parser>::parse_str`. -/
def Config.parse_str (c : Config) (input : Str) : PResult InputError InputType :=
  Config.apply c.dispatchOrder (fun p => p.parse_str input)

/-- `<Config as Parser>::parse_os_str`. -/
def Config.parse_os_str (c : Config) (input : List Nat) : PResult InputError InputType :=
  Config.apply c.dispatchOrder (fun p => p.parse_os_str input)

/-- `<Config as Parser>::parse_bytes`. -/
def Config.parse_bytes (c : Config) (input : List Nat) : PResult InputError InputType :=
  Config.apply c.dispatchOrder (fun p => p.parse_bytes input)

/-- src/input.rs `Input`. -/
structure Input where
  kind : InputType

def Input.from_input_type (i : InputType) : Input := ⟨i⟩

/-- `Config::parse`. -/
def Config.parse (c : Config) (input : Str) : PResult InputError Input :=
  (c.parse_str input).map Input.from_input_type

/-- `Config::default`: `Builder::new().with(|b| b.text().stdin().file())`,
which is `with_text(Text::new())`, `with_stdin(Stdin::new())`,
`with_file(File::new())` in sequence. -/
def Config.default : Config :=
  ⟨((Builder.new.with_text Text.new).with_stdin Stdin.new).with_file File.new⟩

/-- `Input::with_defaults`. -/
def Input.with_defaults (input : Str) : PResult InputError Input :=
  Config.default.parse input

/-- `<Input as FromStr>::from_str`, which delegates to `with_defaults`. -/
def Input.from_str (s : Str) : PResult InputError Input :=
  Input.with_defaults s

/-- Opaque model of `std::io::Error` (produced by the host OS). -/
structure IoError where
  code : Nat

/-- src/error/access.rs `Kind`. -/
inductive AKind where
  | File : AKind
deriving DecidableEq

/-- src/error/access.rs `Inner`: the `File` variant carries an optional
path context and the underlying I/O error. -/
inductive AEInner where
  | File : Option Str → IoError → AEInner

/-- src/error/access.rs `AccessError`. -/
structure AccessError where
  inner : AEInner

def AccessError.kind (e : AccessError) : AKind :=
  match e.inner with
  | .File _ _ => .File

def AccessError.file_with_context (err : IoError) (context : Str) : AccessError :=
  ⟨.File (some context) err⟩

/-- Model of `std::io::Cursor<String>`: the captured content plus a read
position. The cursor serves the string's bytes in order; elements are kept
as `Char` (order-isomorphic to the byte stream for this round-trip model). -/
structure Cursor where
  content : Str
  pos : Nat

def Cursor.new (s : Str) : Cursor := ⟨s, 0⟩

/-- One `io::Read::read` call on a cursor with a buffer of length `bufLen`:
copies `min bufLen remaining` elements and advances the position. -/
def Cursor.read (c : Cursor) (bufLen : Nat) : Str × Cursor :=
  let chunk := (c.content.drop c.pos).take bufLen
  (chunk, ⟨c.content, c.pos + chunk.length⟩)

/-- `read_to_end`-style loop: keep calling `read` with a buffer of size
`bufLen` until it returns no data, concatenating all chunks. -/
def Cursor.read_to_end (c : Cursor) (bufLen : Nat) : Str :=
  if h : bufLen = 0 ∨ c.content.length ≤ c.pos then []
  else
    (c.read bufLen).1 ++ ((c.read bufLen).2.read_to_end bufLen)
termination_by c.content.length - c.pos
decreasing_by
  simp only [Cursor.read, List.length_take, List.length_drop]
  push_neg at h
  omega

/-- src/input.rs `Read` (the byte-source resolver): an opened file handle is
modeled by the byte content the OS will serve for it. -/
inductive Read where
  | File : Str → Read
  | Stdin : Read
  | Text : Cursor → Read

def Read.stdin : Read := .Stdin

def Read.file (content : Str) : Read := .File content

def Read.text (s : Str) : Read := .Text (Cursor.new s)

/-- The ambient OS: what `std::fs::File::open` returns for each path. -/
structure Sys where
  openFile : Str → Except IoError Str

/-- `TryFrom<&InputType> for Read` (src/input.rs:88-100). -/
def Read.try_from (sys : Sys) : InputType → Except AccessError Read
  | .Stdin => .ok Read.stdin
  | .File f =>
    match sys.openFile f.path with
    | .ok content => .ok (Read.file content)
    | .error e => .error (AccessError.file_with_context e f.path)
  | .UTF8 s => .ok (Read.text s)

/-- src/input.rs `InputReader`. -/
structure InputReader where
  input : Read

def InputReader.new (r : Read) : InputReader := ⟨r⟩

/-- `Input::access`. -/
def Input.access (sys : Sys) (i : Input) : Except AccessError InputReader :=
  (Read.try_from sys i.kind).map InputReader.new

/-! ## Helper lemmas -/

lemma isPre_iff : ∀ (m s : Str), m.isPrefixOf s = true ↔ ∃ t, m ++ t = s := by
  intro m
  induction m with
  | nil =>
    intro s
    simp [List.isPrefixOf]
  | cons a m ih =>
    intro s
    cases s with
    | nil => simp [List.isPrefixOf]
    | cons b s₂ =>
      simp only [List.isPrefixOf, Bool.and_eq_true, beq_iff_eq, ih s₂]
      constructor
      · rintro ⟨hab, t, ht⟩
        exact ⟨t, by rw [List.cons_append, hab, ht]⟩
      · rintro ⟨t, ht⟩
        rw [List.cons_append] at ht
        obtain ⟨h₁, h₂⟩ := List.cons.inj ht
        exact ⟨h₁, t, h₂⟩

lemma lor_and_self (a b : Nat) : (a ||| b) &&& a = a := by
  apply Nat.eq_of_testBit_eq
  intro i
  simp only [Nat.testBit_and, Nat.testBit_or]
  cases a.testBit i <;> simp

lemma stdin_default_eq (p : Stdin) (hp : p.parseFn = none) (s : Str) :
    p.parse_str s =
      if s = p.get_marker then .ok InputType.Stdin
      else .error (InputError.new EKind.STDIN) := by
  have hm : p.parse s = default_stdin_parse s p.get_marker := by
    rw [Stdin.parse, hp]
  simp only [Stdin.parse_str, hm, default_stdin_parse, tag]
  by_cases hpre : (p.get_marker).isPrefixOf s
  · rw [if_pos hpre]
    obtain ⟨t, ht⟩ := (isPre_iff _ _).mp hpre
    subst ht
    rw [List.drop_left]
    by_cases hteq : t = []
    · subst hteq
      simp [Stdin.new_error]
    · have hne : p.get_marker ++ t ≠ p.get_marker := by
        intro hcontra
        have hlen := congrArg List.length hcontra
        simp only [List.length_append] at hlen
        exact hteq (List.eq_nil_of_length_eq_zero (by omega))
      simp [hteq, hne, Stdin.new_error]
  · rw [if_neg hpre]
    have hne : s ≠ p.get_marker := by
      intro hcontra
      subst hcontra
      exact hpre ((isPre_iff _ _).mpr ⟨[], List.append_nil _⟩)
    simp [hne, Stdin.new_error]

lemma file_default_eq (p : File) (hp : p.parseFn = none) (s : Str) :
    p.parse_str s =
      if (p.get_marker).isPrefixOf s then
        .ok (InputType.File ⟨s.drop (p.get_marker).length⟩)
      else .error (InputError.new EKind.FILE) := by
  have hm : p.parse s = (default_file_parse s p.get_marker).map FilePath.new := by
    rw [File.parse, hp]
  simp only [File.parse_str, hm, default_file_parse, tag]
  by_cases hpre : (p.get_marker).isPrefixOf s
  · rw [if_pos hpre, if_pos hpre]
    rfl
  · rw [if_neg hpre, if_neg hpre]
    rfl

lemma text_default_empty_eq (p : Text) (hp : p.parseFn = none)
    (hmk : p.get_marker = []) (s : Str) :
    p.parse_str s = .ok (InputType.UTF8 s) := by
  have hm : p.parse s = default_text_parse s p.get_marker := by
    rw [Text.parse, hp]
  simp [Text.parse_str, hm, default_text_parse, hmk]

lemma text_default_ne_eq (p : Text) (hp : p.parseFn = none)
    (hmk : p.get_marker ≠ []) (s : Str) :
    p.parse_str s =
      if (p.get_marker).isPrefixOf s then
        .ok (InputType.UTF8 (s.drop (p.get_marker).length))
      else .error (InputError.new EKind.TEXT) := by
  have hm : p.parse s = default_text_parse s p.get_marker := by
    rw [Text.parse, hp]
  have hempty : (p.get_marker).isEmpty = false := by
    cases hmm : p.get_marker with
    | nil => exact absurd hmm hmk
    | cons a l => rfl
  simp only [Text.parse_str, hm, default_text_parse, hempty, Bool.false_eq_true,
    if_false, tag]
  by_cases hpre : (p.get_marker).isPrefixOf s
  · rw [if_pos hpre, if_pos hpre]
  · rw [if_neg hpre, if_neg hpre]
    rfl

lemma WP.parse_str_error_eq (p : WP) (s : Str) (e : InputError)
    (h : p.parse_str s = .error e) : e = InputError.new p.cat := by
  cases p with
  | file q =>
    simp only [WP.parse_str, File.parse_str] at h
    cases hq : q.parse s <;> rw [hq] at h <;>
      simp_all [File.new_error, WP.cat]
  | stdin q =>
    simp only [WP.parse_str, Stdin.parse_str] at h
    cases hq : q.parse s <;> rw [hq] at h <;>
      simp_all [Stdin.new_error, WP.cat]
  | text q =>
    simp only [WP.parse_str, Text.parse_str] at h
    cases hq : q.parse s <;> rw [hq] at h <;>
      simp_all [Text.new_error, WP.cat]

lemma WP.cat_mem_ALL_KINDS (q : WP) : q.cat ∈ InputError.ALL_KINDS := by
  cases q <;> simp [WP.cat, InputError.ALL_KINDS]

lemma applyGo_acc_ne_panicked (f : WP → Except InputError InputType) :
    ∀ (ps : List WP) (e₀ : InputError),
      Config.applyGo f ps (some e₀) ≠ .panicked := by
  intro ps
  induction ps with
  | nil =>
    intro e₀ h
    simp [Config.applyGo] at h
  | cons p rest ih =>
    intro e₀
    simp only [Config.applyGo]
    cases hf : f p with
    | ok t => simp
    | error e => exact ih (e₀.extend e)

lemma applyGo_ne_panicked (f : WP → Except InputError InputType)
    (ps : List WP) (hne : ps ≠ []) (acc : Option InputError) :
    Config.applyGo f ps acc ≠ .panicked := by
  cases ps with
  | nil => exact absurd rfl hne
  | cons p rest =>
    simp only [Config.applyGo]
    cases hf : f p with
    | ok t => simp
    | error e =>
      cases acc with
      | some prev => exact applyGo_acc_ne_panicked f rest _
      | none => exact applyGo_acc_ne_panicked f rest _

lemma applyGo_first_ok (f : WP → Except InputError InputType) :
    ∀ (l₁ : List WP), (∀ q ∈ l₁, ∀ u, f q ≠ .ok u) →
      ∀ (p : WP) (l₂ : List WP) (t : InputType) (acc : Option InputError),
        f p = .ok t → Config.applyGo f (l₁ ++ p :: l₂) acc = .ok t := by
  intro l₁
  induction l₁ with
  | nil =>
    intro _ p l₂ t acc hp
    simp [Config.applyGo, hp]
  | cons q l ih =>
    intro hq p l₂ t acc hp
    obtain ⟨e, he⟩ : ∃ e, f q = .error e := by
      cases hfq : f q with
      | ok u => exact absurd hfq (hq q (by simp) u)
      | error e => exact ⟨e, rfl⟩
    have hrest : ∀ r ∈ l, ∀ u, f r ≠ .ok u := fun r hr u => hq r (by simp [hr]) u
    simp only [List.cons_append, Config.applyGo, he]
    cases acc with
    | some prev => exact ih hrest p l₂ t _ hp
    | none => exact ih hrest p l₂ t _ hp

/-- The union of the error bits contributed by each unit in a list. -/
def unionWith (E : WP → InputError) (ps : List WP) : Nat :=
  ps.foldr (fun p a => (E p).flags.bits ||| a) 0

lemma applyGo_all_fail_some (f : WP → Except InputError InputType)
    (E : WP → InputError) :
    ∀ (ps : List WP), (∀ q ∈ ps, f q = .error (E q)) → ∀ (e₀ : InputError),
      Config.applyGo f ps (some e₀) = .err ⟨⟨e₀.flags.bits ||| unionWith E ps⟩⟩ := by
  intro ps
  induction ps with
  | nil =>
    intro _ e₀
    simp [Config.applyGo, unionWith]
  | cons p rest ih =>
    intro hq e₀
    simp only [Config.applyGo, hq p (by simp)]
    rw [ih (fun r hr => hq r (by simp [hr])) (e₀.extend (E p))]
    simp [InputError.extend, InputError.insert, EKind.insert, unionWith,
      Nat.lor_assoc]

lemma applyGo_all_fail_none (f : WP → Except InputError InputType)
    (E : WP → InputError) (ps : List WP) (hne : ps ≠ [])
    (hq : ∀ q ∈ ps, f q = .error (E q)) :
    Config.applyGo f ps none = .err ⟨⟨unionWith E ps⟩⟩ := by
  cases ps with
  | nil => exact absurd rfl hne
  | cons p rest =>
    simp only [Config.applyGo, hq p (by simp)]
    rw [applyGo_all_fail_some f E rest (fun r hr => hq r (by simp [hr])) (E p)]
    rfl

lemma applyGo_some_err_sup (f : WP → Except InputError InputType) :
    ∀ (ps : List WP) (e₀ e : InputError),
      Config.applyGo f ps (some e₀) = .err e →
      ∃ k, e.flags.bits = e₀.flags.bits ||| k := by
  intro ps
  induction ps with
  | nil =>
    intro e₀ e h
    simp [Config.applyGo] at h
    exact ⟨0, by rw [← h, Nat.or_zero]⟩
  | cons p rest ih =>
    intro e₀ e
    simp only [Config.applyGo]
    cases hf : f p with
    | ok t =>
      intro h
      exact absurd h (by simp)
    | error e₁ =>
      intro h
      obtain ⟨k, hk⟩ := ih (e₀.extend e₁) e h
      exact ⟨e₁.flags.bits ||| k, by
        rw [hk, InputError.extend, InputError.insert, EKind.insert, Nat.lor_assoc]⟩

lemma applyGo_none_err_cat (f : WP → Except InputError InputType)
    (herr : ∀ q e, f q = .error e → e = InputError.new q.cat) :
    ∀ (ps : List WP) (e : InputError), Config.applyGo f ps none = .err e →
      ∃ q, q ∈ ps ∧ ∃ k, e.flags.bits = (WP.cat q).bits ||| k := by
  intro ps e
  cases ps with
  | nil =>
    intro h
    simp [Config.applyGo] at h
  | cons p rest =>
    simp only [Config.applyGo]
    cases hf : f p with
    | ok t =>
      intro h
      exact absurd h (by simp)
    | error e₁ =>
      intro h
      obtain ⟨k, hk⟩ := applyGo_some_err_sup f rest e₁ e h
      rw [herr p e₁ hf] at hk
      exact ⟨p, by simp, k, hk⟩

lemma contains_of_bits_eq (e : InputError) (x : EKind) (k : Nat)
    (h : e.flags.bits = x.bits ||| k) : e.contains x = true := by
  simp [InputError.contains, EKind.contains, h, lor_and_self]

lemma count_pos_of_contains (e : InputError) (x : EKind)
    (hx : x ∈ InputError.ALL_KINDS) (hc : e.contains x = true) :
    1 ≤ e.count := by
  have hmem : x ∈ InputError.ALL_KINDS.filter (fun k => e.contains k) :=
    List.mem_filter.mpr ⟨hx, hc⟩
  have := List.length_pos.mpr (List.ne_nil_of_mem hmem)
  simpa [InputError.count] using this

lemma wpLe_trans : ∀ (a b c : Option WP), wpLe a b → wpLe b c → wpLe a c := by
  intro a b c
  cases a <;> cases b <;> cases c <;>
    simp [wpLe, optNatLe] <;> omega

lemma wpLe_total : ∀ (a b : Option WP), wpLe a b || wpLe b a := by
  intro a b
  cases a <;> cases b <;> simp [wpLe, optNatLe] <;> omega

/-- The raw slot list handed to the sort inside `with_parsers`. -/
def Config.slotList (c : Config) : List (Option WP) :=
  [c.inner.file.map WP.file, c.inner.stdin.map WP.stdin, c.inner.text.map WP.text]

lemma with_parsers_eq (c : Config) :
    c.with_parsers = c.slotList.mergeSort wpLe := rfl

lemma dispatchOrder_perm (c : Config) :
    c.dispatchOrder.Perm (c.slotList.filterMap id) := by
  exact (List.mergeSort_perm c.slotList wpLe).filterMap id

lemma unionWith_perm (E : WP → InputError) {ps₁ ps₂ : List WP}
    (h : ps₁.Perm ps₂) : unionWith E ps₁ = unionWith E ps₂ := by
  refine List.Perm.foldr_eq' h ?_ 0
  intro x _ y _ z
  rw [← Nat.or_assoc, ← Nat.or_assoc, Nat.or_comm (E y).flags.bits (E x).flags.bits]

/-- The bit-union of the categories of the populated slots: `FILE` when the
file slot is set, `STDIN` for stdin, `TEXT` for text, and nothing else. -/
def Config.slotBits (c : Config) : Nat :=
  (if c.inner.file.isSome then EKind.FILE.bits else 0) |||
  (if c.inner.stdin.isSome then EKind.STDIN.bits else 0) |||
  (if c.inner.text.isSome then EKind.TEXT.bits else 0)

lemma unionWith_slotList (c : Config) :
    unionWith (fun q => InputError.new q.cat) (c.slotList.filterMap id) =
      c.slotBits := by
  cases hf : c.inner.file <;> cases hs : c.inner.stdin <;> cases ht : c.inner.text <;>
    simp [Config.slotList, Config.slotBits, hf, hs, ht, unionWith, WP.cat,
      InputError.new, EKind.FILE, EKind.STDIN, EKind.TEXT]

lemma unionWith_const (e : InputError) :
    ∀ (ps : List WP), ps ≠ [] → unionWith (fun _ => e) ps = e.flags.bits := by
  intro ps
  induction ps with
  | nil => intro h; exact absurd rfl h
  | cons p rest ih =>
    intro _
    cases hr : rest with
    | nil => simp [unionWith]
    | cons q l =>
      have := ih (by simp [hr])
      rw [hr] at this
      show e.flags.bits ||| unionWith (fun _ => e) (q :: l) = e.flags.bits
      rw [this, Nat.or_self]

lemma dispatchOrder_ne_nil_of_valid (b : Builder) (h : b.is_valid = true) :
    (Config.mk b).dispatchOrder ≠ [] := by
  intro hcontra
  have hperm := dispatchOrder_perm (Config.mk b)
  rw [hcontra] at hperm
  have hlen := hperm.length_eq
  simp only [List.length_nil] at hlen
  have hnil := List.eq_nil_of_length_eq_zero hlen.symm
  cases hf : b.file <;> cases hs : b.stdin <;> cases ht : b.text <;>
    simp_all [Builder.is_valid, Config.slotList]

lemma default_with_parsers :
    Config.default.with_parsers =
      [some (WP.file File.new), some (WP.stdin Stdin.new), some (WP.text Text.new)] := by
  apply List.mergeSort_of_sorted
  refine List.Pairwise.cons ?_ (List.Pairwise.cons ?_ (List.pairwise_singleton _ _))
  · intro b hb
    fin_cases hb <;> decide
  · intro b hb
    fin_cases hb <;> decide

lemma default_dispatchOrder :
    Config.default.dispatchOrder =
      [WP.file File.new, WP.stdin Stdin.new, WP.text Text.new] := by
  rw [Config.dispatchOrder, default_with_parsers]
  rfl

lemma drop_take_length {α : Type} (xs : List α) (m : Nat) :
    xs.drop ((xs.take m).length) = xs.drop m := by
  rw [List.length_take]
  rcases Nat.le_total m xs.length with h | h
  · rw [Nat.min_eq_left h]
  · rw [Nat.min_eq_right h, List.drop_length, List.drop_eq_nil_of_le h]

lemma read_to_end_eq (content : Str) (pos bufLen : Nat) (hb : 0 < bufLen) :
    Cursor.read_to_end ⟨content, pos⟩ bufLen = content.drop pos := by
  generalize hn : content.length - pos = n
  induction n using Nat.strong_induction_on generalizing pos with
  | _ n ih =>
    rw [Cursor.read_to_end]
    dsimp only
    split
    case isTrue h =>
      rcases h with h | h
      · omega
      · rw [List.drop_eq_nil_of_le h]
    case isFalse h =>
      push_neg at h
      obtain ⟨hb0, hlt⟩ := h
      simp only [Cursor.read]
      have hchunk : ((content.drop pos).take bufLen).length =
          min bufLen (content.length - pos) := by
        rw [List.length_take, List.length_drop]
      have hpos : 0 < ((content.drop pos).take bufLen).length := by
        rw [hchunk]; omega
      rw [ih (content.length - (pos + ((content.drop pos).take bufLen).length))
        (by omega) _ rfl]
      have hdd : content.drop (pos + ((content.drop pos).take bufLen).length) =
          (content.drop pos).drop (((content.drop pos).take bufLen).length) := by
        rw [List.drop_drop]
      rw [hdd, drop_take_length, List.take_append_drop]

lemma config_no_panic_and_count (b : Builder) (hv : b.is_valid = true)
    (input : Str) :
    (Config.mk b).parse_str input ≠ .panicked ∧
    ∀ e, (Config.mk b).parse_str input = .err e → 1 ≤ e.count := by
  have hne := dispatchOrder_ne_nil_of_valid b hv
  constructor
  · exact applyGo_ne_panicked _ _ hne none
  · intro e he
    have herr : ∀ (q : WP) (e₁ : InputError),
        q.parse_str input = .error e₁ → e₁ = InputError.new q.cat :=
      fun q e₁ h => WP.parse_str_error_eq q input e₁ h
    obtain ⟨q, _, k, hk⟩ :=
      applyGo_none_err_cat (fun p => p.parse_str input) herr
        (Config.mk b).dispatchOrder e he
    exact count_pos_of_contains e _ (WP.cat_mem_ALL_KINDS q)
      (contains_of_bits_eq e _ k hk)

/-! ## Claim theorems -/

/-- C3: for every Stdin parser using the default matching function, with
configured marker `m` (default `"-"`), and every string input `s`,
`parse_str s` succeeds if and only if `s` is exactly the marker (full
consumption: trailing content fails), and a success carries no payload
beyond the `Stdin` tag. -/
theorem c3_stdin_exact_full_match (p : Stdin) (hp : p.parseFn = none) (s : Str) :
    Stdin.new.get_marker = ['-'] ∧
    p.parse_str s =
      (if s = p.get_marker then .ok InputType.Stdin
       else .error (InputError.new EKind.STDIN)) :=
  ⟨rfl, stdin_default_eq p hp s⟩

theorem c3_witness :
    Stdin.new.parse_str ['-'] = .ok InputType.Stdin ∧
    Stdin.new.parse_str ['-', 'x'] = .error (InputError.new EKind.STDIN) := by
  constructor
  · have h := (c3_stdin_exact_full_match Stdin.new rfl ['-']).2
    rw [h]
    simp [Stdin.get_marker, Stdin.new, Stdin.DEFAULT_MARKER]
  · have h := (c3_stdin_exact_full_match Stdin.new rfl ['-', 'x']).2
    rw [h]
    simp [Stdin.get_marker, Stdin.new, Stdin.DEFAULT_MARKER]

/-- C4: for every File parser using the default matching function, with
configured marker `m` (default `"@"`), and every string input `s`,
`parse_str s` succeeds if and only if `s` begins with `m`; on success the
payload path is exactly the remainder of `s` after `m`, verbatim (an empty
remainder is an empty path and still a success). -/
theorem c4_file_marker_and_remainder (p : File) (hp : p.parseFn = none) (s : Str) :
    File.new.get_marker = ['@'] ∧
    p.parse_str s =
      (if (p.get_marker).isPrefixOf s then
        .ok (InputType.File ⟨s.drop (p.get_marker).length⟩)
       else .error (InputError.new EKind.FILE)) :=
  ⟨rfl, file_default_eq p hp s⟩

theorem c4_witness :
    File.new.parse_str ['@', 'a'] = .ok (InputType.File ⟨['a']⟩) ∧
    File.new.parse_str ['@'] = .ok (InputType.File ⟨[]⟩) := by
  constructor
  · have h := (c4_file_marker_and_remainder File.new rfl ['@', 'a']).2
    rw [h]
    simp [File.get_marker, File.new, File.DEFAULT_MARKER, List.isPrefixOf]
  · have h := (c4_file_marker_and_remainder File.new rfl ['@']).2
    rw [h]
    simp [File.get_marker, File.new, File.DEFAULT_MARKER, List.isPrefixOf]

/-- C5: for every Text parser using the default matching function: with an
empty configured marker (the default) it succeeds on every input, returning
the entire input verbatim; with a non-empty marker `m` it succeeds exactly
on inputs beginning with `m`, with payload the remainder after `m`. -/
theorem c5_text_catch_all_or_marker (p : Text) (hp : p.parseFn = none) (s : Str) :
    Text.new.get_marker = [] ∧
    (p.get_marker = [] → p.parse_str s = .ok (InputType.UTF8 s)) ∧
    (p.get_marker ≠ [] →
      p.parse_str s =
        (if (p.get_marker).isPrefixOf s then
          .ok (InputType.UTF8 (s.drop (p.get_marker).length))
         else .error (InputError.new EKind.TEXT))) :=
  ⟨rfl, fun hmk => text_default_empty_eq p hp hmk s,
    fun hmk => text_default_ne_eq p hp hmk s⟩

theorem c5_witness :
    Text.new.parse_str ['h', 'i'] = .ok (InputType.UTF8 ['h', 'i']) :=
  (c5_text_catch_all_or_marker Text.new rfl ['h', 'i']).2.1 rfl

/-- C7: merging two `ErrorSet`s (`InputError::extend` / `insert`) is exactly
bitwise union of the category flags; no category present in either operand
is lost, and merge is commutative and associative; in particular merging
`{File}` with `{Stdin}` in either order gives `{File, Stdin}`. -/
theorem c7_error_set_merge_is_union (a b c : InputError) :
    a.extend b = ⟨⟨a.flags.bits ||| b.flags.bits⟩⟩ ∧
    (∀ k : EKind, a.insert k = ⟨⟨a.flags.bits ||| k.bits⟩⟩) ∧
    a.extend b = b.extend a ∧
    (a.extend b).extend c = a.extend (b.extend c) ∧
    (∀ k : EKind, a.contains k = true ∨ b.contains k = true →
      (a.extend b).contains k = true) ∧
    (InputError.new EKind.FILE).extend (InputError.new EKind.STDIN) =
      (InputError.new EKind.STDIN).extend (InputError.new EKind.FILE) ∧
    ((InputError.new EKind.FILE).extend (InputError.new EKind.STDIN)).contains
      EKind.FILE = true ∧
    ((InputError.new EKind.FILE).extend (InputError.new EKind.STDIN)).contains
      EKind.STDIN = true ∧
    ((InputError.new EKind.FILE).extend (InputError.new EKind.STDIN)).count = 2 := by
  refine ⟨rfl, fun k => rfl, ?_, ?_, ?_, by decide, by decide, by decide, by decide⟩
  · simp only [InputError.extend, InputError.insert, EKind.insert]
    rw [Nat.or_comm]
  · simp only [InputError.extend, InputError.insert, EKind.insert]
    rw [Nat.or_assoc]
  · intro k hk
    simp only [InputError.contains, EKind.contains, beq_iff_eq] at hk ⊢
    simp only [InputError.extend, InputError.insert, EKind.insert]
    rcases hk with hk | hk
    · apply Nat.eq_of_testBit_eq
      intro i
      have hi := congrArg (fun n => n.testBit i) hk
      simp only [Nat.testBit_and] at hi
      simp only [Nat.testBit_and, Nat.testBit_or]
      cases ha : (a.flags.bits).testBit i <;> cases hb : (k.bits).testBit i <;>
        simp_all
    · apply Nat.eq_of_testBit_eq
      intro i
      have hi := congrArg (fun n => n.testBit i) hk
      simp only [Nat.testBit_and] at hi
      simp only [Nat.testBit_and, Nat.testBit_or]
      cases ha : (b.flags.bits).testBit i <;> cases hb : (k.bits).testBit i <;>
        simp_all

theorem c7_witness :
    ((InputError.new EKind.TEXT).extend (InputError.new EKind.STDIN)).contains
      EKind.TEXT = true := by
  have h := c7_error_set_merge_is_union (InputError.new EKind.TEXT)
    (InputError.new EKind.STDIN) (InputError.new EKind.FILE)
  exact h.2.2.2.2.1 EKind.TEXT (Or.inl (by decide))

/-- C9: resolving a `Text{content}` source to a byte stream never fails
(`Input::access` returns `Ok` with an in-memory cursor over the content),
and reading the resulting stream to completion reproduces `content`
exactly. -/
theorem c9_text_access_round_trip (sys : Sys) (content : Str) (bufLen : Nat)
    (hb : 0 < bufLen) :
    Input.access sys ⟨InputType.UTF8 content⟩ =
      .ok (InputReader.new (Read.Text (Cursor.new content))) ∧
    Cursor.read_to_end (Cursor.new content) bufLen = content := by
  refine ⟨rfl, ?_⟩
  have h := read_to_end_eq content 0 bufLen hb
  simpa [Cursor.new] using h

theorem c9_witness :
    Cursor.read_to_end (Cursor.new ['a', 'b', 'c']) 2 = ['a', 'b', 'c'] :=
  (c9_text_access_round_trip ⟨fun _ => .error ⟨0⟩⟩ ['a', 'b', 'c'] 2 (by decide)).2

/-- C1: dispatch considers the present parsers in ascending order of weight,
with ties preserving the fixed slot declaration order (file, then stdin,
then text); it returns the result of the first parser in that order whose
attempt succeeds, and no later parser influences the result (the returned
value is determined by the prefix of failing parsers and the first
succeeding one alone). -/
theorem c1_dispatch_order_and_short_circuit (c : Config) (input : Str)
    (hne : c.dispatchOrder ≠ []) :
    List.Pairwise (fun p q : WP => p.weight ≤ q.weight) c.dispatchOrder ∧
    (∀ f s, c.inner.file = some f → c.inner.stdin = some s →
      f.get_weight = s.get_weight →
      List.Sublist [WP.file f, WP.stdin s] c.dispatchOrder) ∧
    (∀ f t, c.inner.file = some f → c.inner.text = some t →
      f.get_weight = t.get_weight →
      List.Sublist [WP.file f, WP.text t] c.dispatchOrder) ∧
    (∀ s t, c.inner.stdin = some s → c.inner.text = some t →
      s.get_weight = t.get_weight →
      List.Sublist [WP.stdin s, WP.text t] c.dispatchOrder) ∧
    (∀ (l₁ l₂ : List WP) (p : WP) (t : InputType),
      c.dispatchOrder = l₁ ++ p :: l₂ →
      (∀ q ∈ l₁, ∀ u, q.parse_str input ≠ .ok u) →
      p.parse_str input = .ok t →
      c.parse_str input = .ok t) := by
  refine ⟨?_, ?_, ?_, ?_, ?_⟩
  · have hs := List.sorted_mergeSort wpLe_trans wpLe_total c.slotList
    rw [Config.dispatchOrder, with_parsers_eq]
    refine List.Pairwise.filterMap id ?_ hs
    intro a a₂ hR b hb b₂ hb₂
    simp only [id_eq, Option.mem_def] at hb hb₂
    subst hb
    subst hb₂
    simpa [wpLe, optNatLe] using hR
  · intro f s hf hs hw
    have hab : wpLe (some (WP.file f)) (some (WP.stdin s)) = true := by
      simp [wpLe, optNatLe, WP.weight, hw]
    have hsub : List.Sublist [some (WP.file f), some (WP.stdin s)] c.slotList := by
      rw [Config.slotList, hf, hs]
      simp only [Option.map_some']
      exact List.Sublist.cons₂ _ (List.Sublist.cons₂ _ (List.nil_sublist _))
    have hms := List.pair_sublist_mergeSort wpLe_trans wpLe_total hab hsub
    have hfm := hms.filterMap id
    simpa [Config.dispatchOrder, with_parsers_eq, List.filterMap_cons] using hfm
  · intro f t hf ht hw
    have hab : wpLe (some (WP.file f)) (some (WP.text t)) = true := by
      simp [wpLe, optNatLe, WP.weight, hw]
    have hsub : List.Sublist [some (WP.file f), some (WP.text t)] c.slotList := by
      rw [Config.slotList, hf, ht]
      simp only [Option.map_some']
      refine List.Sublist.cons₂ _ ?_
      refine List.Sublist.cons _ ?_
      exact List.Sublist.cons₂ _ (List.nil_sublist _)
    have hms := List.pair_sublist_mergeSort wpLe_trans wpLe_total hab hsub
    have hfm := hms.filterMap id
    simpa [Config.dispatchOrder, with_parsers_eq, List.filterMap_cons] using hfm
  · intro s t hs ht hw
    have hab : wpLe (some (WP.stdin s)) (some (WP.text t)) = true := by
      simp [wpLe, optNatLe, WP.weight, hw]
    have hsub : List.Sublist [some (WP.stdin s), some (WP.text t)] c.slotList := by
      rw [Config.slotList, hs, ht]
      simp only [Option.map_some']
      refine List.Sublist.cons _ ?_
      exact List.Sublist.cons₂ _ (List.Sublist.cons₂ _ (List.nil_sublist _))
    have hms := List.pair_sublist_mergeSort wpLe_trans wpLe_total hab hsub
    have hfm := hms.filterMap id
    simpa [Config.dispatchOrder, with_parsers_eq, List.filterMap_cons] using hfm
  · intro l₁ l₂ p t horder hfail hok
    rw [Config.parse_str, Config.apply, horder]
    exact applyGo_first_ok _ l₁ hfail p l₂ t none hok

theorem c1_witness : Config.default.parse_str ['-'] = .ok InputType.Stdin := by
  have h := c1_dispatch_order_and_short_circuit Config.default ['-']
    (by rw [default_dispatchOrder]; simp)
  refine h.2.2.2.2 [WP.file File.new] [WP.text Text.new] (WP.stdin Stdin.new)
    InputType.Stdin (by rw [default_dispatchOrder]; rfl) ?_ rfl
  intro q hq u
  simp only [List.mem_singleton] at hq
  subst hq
  intro habs
  have hcomp : (WP.file File.new).parse_str ['-'] =
      .error (InputError.new EKind.FILE) := rfl
  rw [hcomp] at habs
  exact Except.noConfusion habs

/-- C2: when every present parser rejects the input, `parse_str` returns an
error whose set has exactly one category bit per tried parser — `FILE` for
the file slot, `STDIN` for stdin, `TEXT` for text — and no other bits, and
at least one category is set. -/
theorem c2_total_failure_error_set (c : Config) (input : Str)
    (hne : c.dispatchOrder ≠ [])
    (hfail : ∀ p ∈ c.dispatchOrder, ∀ t, p.parse_str input ≠ .ok t) :
    c.parse_str input = .err ⟨⟨c.slotBits⟩⟩ ∧
    1 ≤ (InputError.mk (EKind.mk c.slotBits)).count := by
  have herr : ∀ q ∈ c.dispatchOrder,
      q.parse_str input = Except.error (InputError.new q.cat) := by
    intro q hq
    cases hpq : q.parse_str input with
    | ok u => exact absurd hpq (hfail q hq u)
    | error e => rw [WP.parse_str_error_eq q input e hpq]
  have huni : unionWith (fun q => InputError.new q.cat) c.dispatchOrder =
      c.slotBits := by
    rw [unionWith_perm _ (dispatchOrder_perm c), unionWith_slotList]
  have happ : c.parse_str input = .err ⟨⟨c.slotBits⟩⟩ := by
    rw [Config.parse_str, Config.apply,
      applyGo_all_fail_none _ _ c.dispatchOrder hne herr, huni]
  refine ⟨happ, ?_⟩
  cases hoc : c.dispatchOrder with
  | nil => exact absurd hoc hne
  | cons p rest =>
    have hbits : (InputError.mk (EKind.mk c.slotBits)).flags.bits =
        (WP.cat p).bits ||| unionWith (fun q => InputError.new q.cat) rest := by
      show c.slotBits = _
      rw [← huni, hoc]
      rfl
    exact count_pos_of_contains _ _ (WP.cat_mem_ALL_KINDS p)
      (contains_of_bits_eq _ (WP.cat p) _ hbits)

theorem c2_witness :
    (Config.mk (Builder.new.with_text { marker := some ['!'] })).parse_str ['x'] =
      .err (InputError.new EKind.TEXT) := by
  have hw : (Config.mk (Builder.new.with_text { marker := some ['!'] })).with_parsers =
      [none, none, some (WP.text { marker := some ['!'] })] := by
    apply List.mergeSort_of_sorted
    refine List.Pairwise.cons ?_ (List.Pairwise.cons ?_ (List.pairwise_singleton _ _))
    · intro b hb
      fin_cases hb <;> rfl
    · intro b hb
      fin_cases hb <;> rfl
  have horder : (Config.mk (Builder.new.with_text { marker := some ['!'] })).dispatchOrder =
      [WP.text { marker := some ['!'] }] := by
    rw [Config.dispatchOrder, hw]
    rfl
  have hne : (Config.mk (Builder.new.with_text { marker := some ['!'] })).dispatchOrder ≠ [] := by
    rw [horder]
    simp
  have hfail : ∀ p ∈ (Config.mk (Builder.new.with_text { marker := some ['!'] })).dispatchOrder,
      ∀ t, p.parse_str ['x'] ≠ .ok t := by
    intro p hp t
    rw [horder] at hp
    simp only [List.mem_singleton] at hp
    subst hp
    intro habs
    have hcomp : (WP.text ({ marker := some ['!'] } : Text)).parse_str ['x'] =
        .error (InputError.new EKind.TEXT) := rfl
    rw [hcomp] at habs
    exact Except.noConfusion habs
  exact (c2_total_failure_error_set _ ['x'] hne hfail).1

/-- C6: on input that is not valid UTF-8, `parse_os_str` and `parse_bytes`
fail with an `ErrorSet` of exactly the `RequiresUtf8` category. The theorem
holds for every `Config`, in particular for arbitrary (custom) matching
functions in every slot: no matching function is ever consulted, since the
result is independent of them. -/
theorem c6_non_utf8_rejected (c : Config) (bytes : List Nat)
    (hne : c.dispatchOrder ≠ []) (hbad : from_utf8 bytes = none) :
    c.parse_os_str bytes = .err (InputError.new EKind.REQUIRES_UTF8) ∧
    c.parse_bytes bytes = .err (InputError.new EKind.REQUIRES_UTF8) := by
  have hos : ∀ q ∈ c.dispatchOrder,
      q.parse_os_str bytes = Except.error (InputError.new EKind.REQUIRES_UTF8) := by
    intro q _
    simp [WP.parse_os_str, hbad]
  have hbs : ∀ q ∈ c.dispatchOrder,
      q.parse_bytes bytes = Except.error (InputError.new EKind.REQUIRES_UTF8) := by
    intro q _
    simp [WP.parse_bytes, hbad]
  constructor
  · rw [Config.parse_os_str, Config.apply,
      applyGo_all_fail_none _ _ c.dispatchOrder hne hos,
      unionWith_const _ _ hne]
  · rw [Config.parse_bytes, Config.apply,
      applyGo_all_fail_none _ _ c.dispatchOrder hne hbs,
      unionWith_const _ _ hne]

theorem c6_witness :
    Config.default.parse_os_str [255] = .err (InputError.new EKind.REQUIRES_UTF8) :=
  (c6_non_utf8_rejected Config.default [255]
    (by rw [default_dispatchOrder]; simp) (by decide)).1

/-- C8: `Builder::build` yields a `Config` exactly when at least one slot is
populated and panics (modeled `none`) on an empty builder, while
`try_build` returns the builder back as an error; every `Config` obtained
through either constructor never reaches the internal
"less than one parser" panic in `Config::apply`, and its total-failure
error always carries at least one accumulated category. -/
theorem c8_nonempty_invariant :
    (∀ b : Builder, b.is_valid = true → b.build = some ⟨b⟩) ∧
    (∀ b : Builder, b.is_valid = false → b.build = none) ∧
    (∀ b : Builder, b.is_valid = true ↔
      (b.text ≠ none ∨ b.stdin ≠ none ∨ b.file ≠ none)) ∧
    (∀ b : Builder, b.is_valid = true → b.try_build = .ok ⟨b⟩) ∧
    (∀ b : Builder, b.is_valid = false → b.try_build = .error b) ∧
    (∀ (b : Builder) (c : Config) (input : Str), b.build = some c →
      c.parse_str input ≠ .panicked ∧
      ∀ e, c.parse_str input = .err e → 1 ≤ e.count) ∧
    (∀ (b : Builder) (c : Config) (input : Str), b.try_build = .ok c →
      c.parse_str input ≠ .panicked ∧
      ∀ e, c.parse_str input = .err e → 1 ≤ e.count) := by
  refine ⟨?_, ?_, ?_, ?_, ?_, ?_, ?_⟩
  · intro b h
    simp [Builder.build, h]
  · intro b h
    simp [Builder.build, h]
  · intro b
    simp only [Builder.is_valid, Bool.or_eq_true, Option.isSome_iff_ne_none]
    tauto
  · intro b h
    simp [Builder.try_build, h]
  · intro b h
    simp [Builder.try_build, h]
  · intro b c input hb
    obtain ⟨hv, rfl⟩ : b.is_valid = true ∧ c = ⟨b⟩ := by
      by_cases h : b.is_valid = true
      · refine ⟨h, ?_⟩
        simp only [Builder.build, h, if_true, Option.some.injEq] at hb
        exact hb.symm
      · simp [Builder.build, h] at hb
    exact config_no_panic_and_count b hv input
  · intro b c input hb
    obtain ⟨hv, rfl⟩ : b.is_valid = true ∧ c = ⟨b⟩ := by
      by_cases h : b.is_valid = true
      · refine ⟨h, ?_⟩
        simp only [Builder.try_build, h, if_true, Except.ok.injEq] at hb
        exact hb.symm
      · simp [Builder.try_build, h] at hb
    exact config_no_panic_and_count b hv input

theorem c8_witness :
    (Builder.new.with_stdin Stdin.new).build =
      some ⟨Builder.new.with_stdin Stdin.new⟩ ∧
    (Config.mk (Builder.new.with_stdin Stdin.new)).parse_str ['x'] ≠ .panicked := by
  have h := c8_nonempty_invariant
  have hb := h.1 (Builder.new.with_stdin Stdin.new) rfl
  refine ⟨hb, ?_⟩
  exact (h.2.2.2.2.2.1 (Builder.new.with_stdin Stdin.new) _ ['x'] hb).1

/-- C10: with the default `Config` (all three parsers present, default
markers and weights), parsing any UTF-8 string input always succeeds —
`Config::default().parse`, `Input::with_defaults` and `Input::from_str`
never return an error — and whenever the input is not exactly `"-"` and
does not begin with `"@"`, the result is the `Text` variant carrying the
input verbatim. -/
theorem c10_default_parse_total (s : Str) :
    (∃ t, Config.default.parse_str s = .ok t) ∧
    (∃ i, Input.with_defaults s = .ok i ∧ Input.from_str s = .ok i) ∧
    (s ≠ ['-'] → (['@'] : Str).isPrefixOf s = false →
      Config.default.parse_str s = .ok (InputType.UTF8 s) ∧
      Input.with_defaults s = .ok ⟨InputType.UTF8 s⟩ ∧
      Input.from_str s = .ok ⟨InputType.UTF8 s⟩) := by
  have hf := file_default_eq File.new rfl s
  have hsd := stdin_default_eq Stdin.new rfl s
  have ht := text_default_empty_eq Text.new rfl rfl s
  have hparse : Config.default.parse_str s =
      Config.applyGo (fun p => p.parse_str s)
        [WP.file File.new, WP.stdin Stdin.new, WP.text Text.new] none := by
    rw [Config.parse_str, Config.apply, default_dispatchOrder]
  by_cases h1 : (File.new.get_marker).isPrefixOf s = true
  · have hres : Config.default.parse_str s =
        .ok (InputType.File ⟨s.drop (File.new.get_marker).length⟩) := by
      rw [hparse]
      simp [Config.applyGo, WP.parse_str, hf, h1]
    have hwd : Input.with_defaults s =
        .ok ⟨InputType.File ⟨s.drop (File.new.get_marker).length⟩⟩ := by
      rw [Input.with_defaults, Config.parse, hres]
      rfl
    refine ⟨⟨_, hres⟩, ⟨_, hwd, ?_⟩, ?_⟩
    · rw [Input.from_str]
      exact hwd
    · intro _ habs
      have h1x : (File.new.get_marker).isPrefixOf s = false := habs
      rw [h1x] at h1
      exact Bool.noConfusion h1
  · have h1f : (File.new.get_marker).isPrefixOf s = false := by
      cases hb : (File.new.get_marker).isPrefixOf s
      · rfl
      · exact absurd hb h1
    by_cases h2 : s = Stdin.new.get_marker
    · subst h2
      have hres : Config.default.parse_str Stdin.new.get_marker =
          .ok InputType.Stdin := by
        rw [Config.parse_str, Config.apply, default_dispatchOrder]
        rfl
      have hwd : Input.with_defaults Stdin.new.get_marker = .ok ⟨InputType.Stdin⟩ := by
        rw [Input.with_defaults, Config.parse, hres]
        rfl
      refine ⟨⟨_, hres⟩, ⟨_, hwd, ?_⟩, ?_⟩
      · rw [Input.from_str]
        exact hwd
      · intro habs _
        exact absurd rfl habs
    · have hres : Config.default.parse_str s = .ok (InputType.UTF8 s) := by
        rw [hparse]
        simp [Config.applyGo, WP.parse_str, hf, hsd, ht, h1f, h2]
      have hwd : Input.with_defaults s = .ok ⟨InputType.UTF8 s⟩ := by
        rw [Input.with_defaults, Config.parse, hres]
        rfl
      refine ⟨⟨_, hres⟩, ⟨_, hwd, ?_⟩, fun _ _ => ⟨hres, hwd, ?_⟩⟩
      · rw [Input.from_str]
        exact hwd
      · rw [Input.from_str]
        exact hwd

theorem c10_witness :
    Input.with_defaults ['h', 'i'] = .ok ⟨InputType.UTF8 ['h', 'i']⟩ := by
  have h := (c10_default_parse_total ['h', 'i']).2.2 (by decide) (by decide)
  exact h.2.1

end Grab
